import Mathlib

/-!
# NavSphere build/validate pipeline — verification development

Shallow embedding of `scripts/build-data.ts` and `scripts/validate.ts`
(types from `src/types/index.ts`), with theorems settling the spec claims.

JS semantics modelled:
* template-string ids `` `${a}-${b}` `` become `a ++ "-" ++ b`;
* `Array.prototype.sort(cmp)` (guaranteed stable by ECMAScript) becomes
  `List.mergeSort` with `le a b := cmp a b ≤ 0`, which is stable and sorted;
* `arr.filter((v, i) => arr.indexOf(v) !== i)` is embedded literally with
  `List.enum` and `List.indexOf`;
* `[...new Set(xs)]` (insertion-ordered dedup) becomes `dedupJS`.
-/

namespace NavSphere

/-! ## Types (`src/types/index.ts`)

`EnvType = 'test' | 'staging' | 'prod'` (the lower-case enumeration is the
one `build-data.ts`'s `getEnvOrder` keys match). -/

inductive EnvType : Type
  | test
  | staging
  | prod
deriving DecidableEq, Repr

/-- The string a template literal interpolates an `EnvType` value as. -/
def envToString : EnvType → String
  | .test => "test"
  | .staging => "staging"
  | .prod => "prod"

structure Category : Type where
  id : String
  name : String
  description : Option String := none
  icon : Option String := none
  order : Option Int := none
deriving DecidableEq, Repr

structure Project : Type where
  id : String
  name : String
  description : Option String := none
  categoryId : String
  icon : Option String := none
  order : Option Int := none
deriving DecidableEq, Repr

structure ProjectEnv : Type where
  projectId : String
  env : EnvType
  url : String
  description : Option String := none
  enabled : Bool
deriving DecidableEq, Repr

structure NavigationItem : Type where
  id : String
  projectId : String
  projectName : String
  projectDescription : Option String := none
  categoryId : String
  env : EnvType
  url : String
  envDescription : Option String := none
  icon : Option String := none
  enabled : Bool
  order : Int
deriving DecidableEq, Repr

structure CategoryBlock : Type where
  category : Category
  items : List NavigationItem
deriving DecidableEq, Repr

/-! ## `scripts/build-data.ts` -/

/-- `getEnvOrder`: the sort-weight lookup `{ prod: 1, staging: 2, test: 3 }`. -/
def getEnvOrder : EnvType → Int
  | .prod => 1
  | .staging => 2
  | .test => 3

/-- The NavigationItem pushed for one `(project, env)` pair inside
`expandNavigationItems`. -/
def mkItem (project : Project) (env : ProjectEnv) : NavigationItem :=
  { id := project.id ++ "-" ++ envToString env.env
    projectId := project.id
    projectName := project.name
    projectDescription := project.description
    categoryId := project.categoryId
    env := env.env
    url := env.url
    envDescription := env.description
    icon := project.icon
    enabled := env.enabled
    order := getEnvOrder env.env }

/-- `expandNavigationItems`: for each project, filter the envs whose
`projectId` matches, and push one item per matching pair. -/
def expandNavigationItems (projects : List Project) (projectEnvs : List ProjectEnv) :
    List NavigationItem :=
  projects.flatMap fun project =>
    (projectEnvs.filter fun e => e.projectId == project.id).map fun env =>
      mkItem project env

/-- The item comparator of `groupByCategory`'s inner `.sort`:
`if (a.order !== b.order) return a.order - b.order; return
a.projectName.localeCompare(b.projectName)`.  `localeCompare` is the
external locale-collation collaborator, abstracted as the parameter `lc`. -/
def itemCmp (lc : String → String → Int) (a b : NavigationItem) : Int :=
  if a.order ≠ b.order then a.order - b.order
  else lc a.projectName b.projectName

/-- `itemCmp` as a `≤`-style Boolean relation (what a stable JS sort
respects: `cmp a b ≤ 0`). -/
def itemLE (lc : String → String → Int) (a b : NavigationItem) : Bool :=
  itemCmp lc a b ≤ 0

/-- One mapped element of `groupByCategory`: the category together with its
filtered (`categoryId` matches and `enabled`) and sorted items. -/
def blockOf (lc : String → String → Int) (navigationItems : List NavigationItem)
    (category : Category) : CategoryBlock :=
  { category := category
    items := ((navigationItems.filter fun item =>
        item.categoryId == category.id && item.enabled).mergeSort (itemLE lc)) }

/-- `a.category.order ?? 999`. -/
def effOrder (b : CategoryBlock) : Int := b.category.order.getD 999

/-- The category-block comparator of `groupByCategory`'s outer `.sort`:
`(a.category.order ?? 999) - (b.category.order ?? 999)`. -/
def catCmp (a b : CategoryBlock) : Int := effOrder a - effOrder b

/-- `catCmp` as a `≤`-style Boolean relation. -/
def catLE (a b : CategoryBlock) : Bool := catCmp a b ≤ 0

/-- The block list of `groupByCategory` before the final sort:
`categories.map(...).filter(block => block.items.length > 0)`. -/
def blocksUnsorted (lc : String → String → Int) (categories : List Category)
    (navigationItems : List NavigationItem) : List CategoryBlock :=
  (categories.map (blockOf lc navigationItems)).filter fun block =>
    decide (block.items.length > 0)

/-- `groupByCategory`: map each category to its filtered/sorted block, drop
empty blocks, sort blocks by `(order ?? 999)` ascending. -/
def groupByCategory (lc : String → String → Int) (categories : List Category)
    (navigationItems : List NavigationItem) : List CategoryBlock :=
  (blocksUnsorted lc categories navigationItems).mergeSort catLE

/-! ## `scripts/validate.ts`

The validator works on raw (not yet schema-checked) records, so the raw
record types keep every field the YAML may carry; `env` is a plain string
until the schema check constrains it, and `enabled` may be absent (zod
defaults it to `true`). -/

structure RawCategory : Type where
  id : String
  name : String
  description : Option String := none
  icon : Option String := none
  order : Option Int := none
deriving DecidableEq, Repr

structure RawProject : Type where
  id : String
  name : String
  description : Option String := none
  categoryId : String
  icon : Option String := none
  order : Option Int := none
deriving DecidableEq, Repr

structure RawProjectEnv : Type where
  projectId : String
  env : String
  url : String
  description : Option String := none
  enabled : Option Bool := none
deriving DecidableEq, Repr

structure RawLink : Type where
  id : String
  name : String
  url : String
  description : Option String := none
  categoryId : Option String := none
  icon : Option String := none
  order : Option Int := none
  enabled : Option Bool := none
deriving DecidableEq, Repr

structure ValidationResult : Type where
  valid : Bool
  errors : List String
deriving DecidableEq, Repr

/-- Abstraction of the external zod `z.string().url()` collaborator
(well-formed absolute URL predicate); its exact behaviour is outside this
repository and no claim depends on it. -/
def isValidUrl (s : String) : Bool :=
  s.startsWith "http://" || s.startsWith "https://"

/-- `ids.filter((id, index) => ids.indexOf(id) !== index)` — the JS idiom
used for every duplicate check: it keeps each occurrence that is not the
first occurrence of its value. -/
def dupsJS (xs : List String) : List String :=
  (xs.enum.filter fun p => xs.indexOf p.2 != p.1).map (·.2)

/-- `[...new Set(xs)]` — insertion-ordered deduplication: iterate the list,
emitting each value the first time it is seen. -/
def dedupJS (xs : List String) : List String :=
  go [] xs
where
  /-- `seen` holds the values already emitted. -/
  go (seen : List String) : List String → List String
    | [] => []
    | x :: rest => if seen.contains x then go seen rest else x :: go (x :: seen) rest

/-- Field-level zod violations of `CategorySchema` for one record. -/
def categoryRecordErrors (i : Nat) (c : RawCategory) : List String :=
  (if c.id.length < 1 then
    ["Category validation error: " ++ toString i ++ ".id - String must contain at least 1 character(s)"]
  else []) ++
  (if c.name.length < 1 then
    ["Category validation error: " ++ toString i ++ ".name - String must contain at least 1 character(s)"]
  else []) ++
  (match c.order with
   | some o => if o < 0 then
      ["Category validation error: " ++ toString i ++ ".order - Number must be greater than or equal to 0"]
     else []
   | none => [])

/-- All field-level violations of `CategorySchema.array().safeParse`. -/
def categorySchemaErrors (categories : List RawCategory) : List String :=
  categories.enum.flatMap fun p => categoryRecordErrors p.1 p.2

/-- `validateCategories`. -/
def validateCategories (categories : List RawCategory) : ValidationResult :=
  let schemaErrors := categorySchemaErrors categories
  if schemaErrors ≠ [] then { valid := false, errors := schemaErrors }
  else
    let ids := categories.map (·.id)
    let duplicateIds := dupsJS ids
    let errors := if duplicateIds ≠ [] then
        ["Duplicate category IDs: " ++ String.intercalate ", " duplicateIds]
      else []
    { valid := decide (errors.length = 0), errors := errors }

/-- Field-level zod violations of `ProjectSchema` for one record. -/
def projectRecordErrors (i : Nat) (p : RawProject) : List String :=
  (if p.id.length < 1 then
    ["Project validation error: " ++ toString i ++ ".id - String must contain at least 1 character(s)"]
  else []) ++
  (if p.name.length < 1 then
    ["Project validation error: " ++ toString i ++ ".name - String must contain at least 1 character(s)"]
  else []) ++
  (if p.categoryId.length < 1 then
    ["Project validation error: " ++ toString i ++ ".categoryId - String must contain at least 1 character(s)"]
  else []) ++
  (match p.order with
   | some o => if o < 0 then
      ["Project validation error: " ++ toString i ++ ".order - Number must be greater than or equal to 0"]
     else []
   | none => [])

/-- All field-level violations of `ProjectSchema.array().safeParse`. -/
def projectSchemaErrors (projects : List RawProject) : List String :=
  projects.enum.flatMap fun p => projectRecordErrors p.1 p.2

/-- `validateProjects`. -/
def validateProjects (projects : List RawProject) : ValidationResult :=
  let schemaErrors := projectSchemaErrors projects
  if schemaErrors ≠ [] then { valid := false, errors := schemaErrors }
  else
    let ids := projects.map (·.id)
    let duplicateIds := dupsJS ids
    let e1 := if duplicateIds ≠ [] then
        ["Duplicate project IDs: " ++ String.intercalate ", " duplicateIds]
      else []
    let names := projects.map (·.name)
    let duplicateNames := dupsJS names
    let e2 := if duplicateNames ≠ [] then
        ["Duplicate project names: " ++ String.intercalate ", " duplicateNames]
      else []
    let errors := e1 ++ e2
    { valid := decide (errors.length = 0), errors := errors }

/-- Field-level zod violations of `ProjectEnvSchema` for one record. -/
def projectEnvRecordErrors (i : Nat) (e : RawProjectEnv) : List String :=
  (if e.projectId.length < 1 then
    ["ProjectEnv validation error: " ++ toString i ++ ".projectId - String must contain at least 1 character(s)"]
  else []) ++
  (if !(["test", "staging", "prod"].contains e.env) then
    ["ProjectEnv validation error: " ++ toString i ++ ".env - Invalid enum value"]
  else []) ++
  (if !(isValidUrl e.url) then
    ["ProjectEnv validation error: " ++ toString i ++ ".url - Invalid url"]
  else [])

/-- All field-level violations of `ProjectEnvSchema.array().safeParse`. -/
def projectEnvSchemaErrors (envs : List RawProjectEnv) : List String :=
  envs.enum.flatMap fun p => projectEnvRecordErrors p.1 p.2

/-- `parsed.data.map(e => e.projectId).filter(id => !projectIds.includes(id))`. -/
def invalidProjectIdsOf (envs : List RawProjectEnv) (projectIds : List String) : List String :=
  (envs.map (·.projectId)).filter fun id => !(projectIds.contains id)

/-- `parsed.data.map(e => ` `` `${e.projectId}-${e.env}` `` `)`. -/
def combinationsOf (envs : List RawProjectEnv) : List String :=
  envs.map fun e => e.projectId ++ "-" ++ e.env

/-- `validateProjectEnvs` (the `categoryIds` parameter exists in the source
signature but its body never uses it). -/
def validateProjectEnvs (envs : List RawProjectEnv) (categoryIds : List String)
    (projectIds : List String) : ValidationResult :=
  let _ := categoryIds
  let schemaErrors := projectEnvSchemaErrors envs
  if schemaErrors ≠ [] then { valid := false, errors := schemaErrors }
  else
    let invalidProjectIds := invalidProjectIdsOf envs projectIds
    let e1 := if invalidProjectIds ≠ [] then
        ["ProjectEnv references non-existent projectIds: " ++
          String.intercalate ", " (dedupJS invalidProjectIds)]
      else []
    let duplicateCombinations := dupsJS (combinationsOf envs)
    let e2 := if duplicateCombinations ≠ [] then
        ["Duplicate projectId-env combinations: " ++
          String.intercalate ", " (dedupJS duplicateCombinations)]
      else []
    let errors := e1 ++ e2
    { valid := decide (errors.length = 0), errors := errors }

/-- Field-level zod violations of `LinkSchema` for one record. -/
def linkRecordErrors (i : Nat) (l : RawLink) : List String :=
  (if l.id.length < 1 then
    ["Link validation error: " ++ toString i ++ ".id - String must contain at least 1 character(s)"]
  else []) ++
  (if l.name.length < 1 then
    ["Link validation error: " ++ toString i ++ ".name - String must contain at least 1 character(s)"]
  else []) ++
  (if !(isValidUrl l.url) then
    ["Link validation error: " ++ toString i ++ ".url - Invalid url"]
  else []) ++
  (match l.order with
   | some o => if o < 0 then
      ["Link validation error: " ++ toString i ++ ".order - Number must be greater than or equal to 0"]
     else []
   | none => [])

/-- All field-level violations of `LinkSchema.array().safeParse`. -/
def linkSchemaErrors (links : List RawLink) : List String :=
  links.enum.flatMap fun p => linkRecordErrors p.1 p.2

/-- `validateLinks`; `links.filter(l => l.categoryId)` uses JS truthiness,
so an absent and an empty-string `categoryId` are both excluded. -/
def validateLinks (links : List RawLink) (categoryIds : List String) : ValidationResult :=
  let schemaErrors := linkSchemaErrors links
  if schemaErrors ≠ [] then { valid := false, errors := schemaErrors }
  else
    let ids := links.map (·.id)
    let duplicateIds := dupsJS ids
    let e1 := if duplicateIds ≠ [] then
        ["Duplicate link IDs: " ++ String.intercalate ", " duplicateIds]
      else []
    let linksWithCategory := links.filter fun l => (l.categoryId.getD "") != ""
    let invalidCategoryIds := (linksWithCategory.map fun l => l.categoryId.getD "").filter
      fun id => !(categoryIds.contains id)
    let e2 := if invalidCategoryIds ≠ [] then
        ["Link references non-existent categoryIds: " ++
          String.intercalate ", " (dedupJS invalidCategoryIds)]
      else []
    let errors := e1 ++ e2
    { valid := decide (errors.length = 0), errors := errors }

/-- The cross-file check of `main`:
`projects.map(p => p.categoryId).filter(id => !categoryIds.includes(id))`,
computed on the raw loaded arrays. -/
def invalidProjectCategoryIds (categories : List RawCategory) (projects : List RawProject) :
    List String :=
  (projects.map (·.categoryId)).filter fun id => !((categories.map (·.id)).contains id)

/-- The error entries the cross-file check contributes to `allErrors`. -/
def crossFileErrors (categories : List RawCategory) (projects : List RawProject) :
    List String :=
  if invalidProjectCategoryIds categories projects ≠ [] then
    ["Projects reference non-existent categoryIds: " ++
      String.intercalate ", " (dedupJS (invalidProjectCategoryIds categories projects))]
  else []

/-- The `allErrors` accumulation of `main` after a successful load: each
validator's errors are appended when its result is invalid, then the
cross-file check runs unconditionally on the raw arrays. -/
def mainChecks (categories : List RawCategory) (projects : List RawProject)
    (projectEnvs : List RawProjectEnv) (links : List RawLink) : List String :=
  let categoryResult := validateCategories categories
  let e1 := if categoryResult.valid then [] else categoryResult.errors
  let projectResult := validateProjects projects
  let e2 := if projectResult.valid then [] else projectResult.errors
  let categoryIds := categories.map (·.id)
  let projectIds := projects.map (·.id)
  let envResult := validateProjectEnvs projectEnvs categoryIds projectIds
  let e3 := if envResult.valid then [] else envResult.errors
  let linkResult := validateLinks links categoryIds
  let e4 := if linkResult.valid then [] else linkResult.errors
  e1 ++ e2 ++ e3 ++ e4 ++ crossFileErrors categories projects

/-- `main`: the four `loadYaml` calls sit inside one `try`; any load
failure is caught and pushed onto `allErrors` as a single
`Failed to read data files` entry, and no validation runs. -/
def main (loaded : Except String
    (List RawCategory × List RawProject × List RawProjectEnv × List RawLink)) :
    List String :=
  match loaded with
  | .error err => ["Failed to read data files: " ++ err]
  | .ok (categories, projects, projectEnvs, links) =>
      mainChecks categories projects projectEnvs links

/-! ## Helper lemmas about the expander -/

/-- Membership characterisation of `expandNavigationItems`. -/
theorem mem_expand {projects : List Project} {projectEnvs : List ProjectEnv}
    {i : NavigationItem} :
    i ∈ expandNavigationItems projects projectEnvs ↔
      ∃ p ∈ projects, ∃ e ∈ projectEnvs, e.projectId = p.id ∧ i = mkItem p e := by
  simp only [expandNavigationItems, List.mem_flatMap, List.mem_map, List.mem_filter,
    beq_iff_eq]
  constructor
  · rintro ⟨p, hp, e, ⟨he, hpe⟩, hi⟩
    exact ⟨p, hp, e, he, hpe, hi.symm⟩
  · rintro ⟨p, hp, e, he, hpe, hi⟩
    exact ⟨p, hp, e, ⟨he, hpe⟩, hi.symm⟩

/-- The combination key `"<projectId>-<env>"` is injective: the three
environment strings have pairwise different last characters, so the
separator cannot be confused with project-id content. -/
theorem key_inj {p1 p2 : String} {e1 e2 : EnvType}
    (h : p1 ++ "-" ++ envToString e1 = p2 ++ "-" ++ envToString e2) :
    p1 = p2 ∧ e1 = e2 := by
  have h2 := congrArg String.data h
  cases e1 <;> cases e2 <;>
    simp only [envToString, String.data_append, List.append_assoc] at h2 <;>
    first
      | exact ⟨String.ext (List.append_inj_left' h2 rfl), rfl⟩
      | (have h3 := congrArg List.getLast? h2
         simp only [List.getLast?_append] at h3
         simp at h3)

/-- Splitting a filter over a pointwise-exclusive disjunction of predicates
splits its length. -/
theorem length_filter_or {α : Type} (f g : α → Bool) (l : List α)
    (h : ∀ a ∈ l, ¬(f a = true ∧ g a = true)) :
    (l.filter fun a => f a || g a).length = (l.filter f).length + (l.filter g).length := by
  induction l with
  | nil => simp
  | cons a l ih =>
    have ih' := ih fun b hb => h b (List.mem_cons_of_mem a hb)
    by_cases hf : f a = true
    · have hg : g a = false := by
        cases hgt : g a
        · rfl
        · exact absurd ⟨hf, hgt⟩ (h a (List.mem_cons_self a l))
      simp [List.filter_cons, hf, hg, ih']
      omega
    · have hf' : f a = false := by
        cases hft : f a
        · rfl
        · exact absurd hft hf
      cases hg : g a
      · simp [List.filter_cons, hf', hg, ih']
      · simp [List.filter_cons, hf', hg, ih']
        omega

/-- With pairwise-distinct project ids, the expander emits exactly one item
for each env record whose `projectId` is the id of some project. -/
theorem expand_length_filter (E : List ProjectEnv) :
    ∀ P : List Project, P.Pairwise (fun p q => p.id ≠ q.id) →
      (expandNavigationItems P E).length =
        (E.filter fun e => P.any fun p => e.projectId == p.id).length := by
  intro P
  induction P with
  | nil => simp [expandNavigationItems]
  | cons p ps ih =>
    intro hnd
    obtain ⟨hp, hps⟩ := List.pairwise_cons.mp hnd
    have hcons : expandNavigationItems (p :: ps) E =
        ((E.filter fun e => e.projectId == p.id).map (mkItem p)) ++
          expandNavigationItems ps E := by
      simp [expandNavigationItems]
    rw [hcons, List.length_append, List.length_map, ih hps]
    have hdisj : ∀ e ∈ E,
        ¬((e.projectId == p.id) = true ∧ (ps.any fun q => e.projectId == q.id) = true) := by
      rintro e _ ⟨h1, h2⟩
      obtain ⟨q, hq, hq2⟩ := List.any_eq_true.mp h2
      exact hp q hq (by rw [← beq_iff_eq.mp h1, beq_iff_eq.mp hq2])
    have hsplit := length_filter_or _ _ E hdisj
    simp only [List.any_cons]
    omega

/-- With pairwise-distinct project ids and pairwise-distinct
`(projectId, env)` pairs, the emitted item ids are pairwise distinct. -/
theorem expand_ids_nodup (E : List ProjectEnv)
    (hE : E.Pairwise fun e1 e2 => ¬(e1.projectId = e2.projectId ∧ e1.env = e2.env)) :
    ∀ P : List Project, P.Pairwise (fun p q => p.id ≠ q.id) →
      (expandNavigationItems P E).Pairwise fun i j => i.id ≠ j.id := by
  intro P
  induction P with
  | nil => simp [expandNavigationItems]
  | cons p ps ih =>
    intro hnd
    obtain ⟨hp, hps⟩ := List.pairwise_cons.mp hnd
    have hcons : expandNavigationItems (p :: ps) E =
        ((E.filter fun e => e.projectId == p.id).map (mkItem p)) ++
          expandNavigationItems ps E := by
      simp [expandNavigationItems]
    rw [hcons]
    refine List.pairwise_append.mpr ⟨?_, ih hps, ?_⟩
    · refine List.pairwise_map.mpr ?_
      have hsub : (E.filter fun e => e.projectId == p.id).Pairwise
          (fun e1 e2 => ¬(e1.projectId = e2.projectId ∧ e1.env = e2.env)) :=
        hE.sublist (List.filter_sublist E)
      refine hsub.imp_of_mem ?_
      intro e1 e2 h1 h2 hne heq
      apply hne
      have hk := key_inj heq
      have h1' := beq_iff_eq.mp (List.mem_filter.mp h1).2
      have h2' := beq_iff_eq.mp (List.mem_filter.mp h2).2
      exact ⟨by rw [h1', h2'], hk.2⟩
    · intro a ha b hb heq
      obtain ⟨e, _, rfl⟩ := List.mem_map.mp ha
      obtain ⟨q, hq, e', _, _, rfl⟩ := mem_expand.mp hb
      exact hp q hq (key_inj heq).1

/-! ## Claims C4, C5, C6 -/

/-- **C4** (amended): when project ids are pairwise distinct and every env
record's `projectId` matches some project, `expandNavigationItems` emits
exactly `|E|` items. -/
theorem expand_card_of_nodup (P : List Project) (E : List ProjectEnv)
    (hnd : P.Pairwise fun p q => p.id ≠ q.id)
    (hcov : ∀ e ∈ E, ∃ p ∈ P, e.projectId = p.id) :
    (expandNavigationItems P E).length = E.length := by
  rw [expand_length_filter E P hnd]
  have hall : E.filter (fun e => P.any fun p => e.projectId == p.id) = E := by
    refine List.filter_eq_self.mpr fun e he => ?_
    obtain ⟨p, hp, hep⟩ := hcov e he
    exact List.any_eq_true.mpr ⟨p, hp, beq_iff_eq.mpr hep⟩
  rw [hall]

theorem expand_card_of_nodup_witness :
    (expandNavigationItems
      [{ id := "svc", name := "Service", categoryId := "infra" }]
      [{ projectId := "svc", env := .prod, url := "https://prod.example.com", enabled := true },
       { projectId := "svc", env := .test, url := "https://test.example.com", enabled := true }]).length =
    ([{ projectId := "svc", env := .prod, url := "https://prod.example.com", enabled := true },
      { projectId := "svc", env := .test, url := "https://test.example.com", enabled := true }] :
        List ProjectEnv).length :=
  expand_card_of_nodup _ _ (by decide) (by decide)

/-- **C4** (counterexample to the claim as stated): with two projects
sharing the id `"a"`, a single env record matching some project yields two
items, not `|E| = 1`. -/
theorem expand_card_claim_cx :
    (expandNavigationItems
      [{ id := "a", name := "n1", categoryId := "c" },
       { id := "a", name := "n2", categoryId := "c" }]
      [{ projectId := "a", env := .prod, url := "https://u", enabled := true }]).length = 2 ∧
    ([{ projectId := "a", env := .prod, url := "https://u", enabled := true }] :
        List ProjectEnv).length = 1 ∧
    (([{ projectId := "a", env := .prod, url := "https://u", enabled := true }] :
        List ProjectEnv).all fun e =>
      ([{ id := "a", name := "n1", categoryId := "c" },
        { id := "a", name := "n2", categoryId := "c" }] :
          List Project).any fun p => e.projectId == p.id) = true := by
  refine ⟨rfl, rfl, rfl⟩

/-- **C5** (amended): every emitted item's `id` is
`projectId ++ "-" ++ env`; and the ids are pairwise distinct whenever the
input `(projectId, env)` pairs are pairwise distinct **and** the project
ids are pairwise distinct. -/
theorem expand_ids_spec (P : List Project) (E : List ProjectEnv)
    (hnd : P.Pairwise fun p q => p.id ≠ q.id)
    (hE : E.Pairwise fun e1 e2 => ¬(e1.projectId = e2.projectId ∧ e1.env = e2.env)) :
    (∀ i ∈ expandNavigationItems P E, i.id = i.projectId ++ "-" ++ envToString i.env) ∧
    (expandNavigationItems P E).Pairwise (fun i j => i.id ≠ j.id) := by
  constructor
  · intro i hi
    obtain ⟨p, _, e, _, _, rfl⟩ := mem_expand.mp hi
    rfl
  · exact expand_ids_nodup E hE P hnd

theorem expand_ids_spec_witness :
    (∀ i ∈ expandNavigationItems
        [{ id := "svc", name := "Service", categoryId := "infra" }]
        [{ projectId := "svc", env := .prod, url := "https://u", enabled := true },
         { projectId := "svc", env := .test, url := "https://u", enabled := true }],
      i.id = i.projectId ++ "-" ++ envToString i.env) ∧
    (expandNavigationItems
        [{ id := "svc", name := "Service", categoryId := "infra" }]
        [{ projectId := "svc", env := .prod, url := "https://u", enabled := true },
         { projectId := "svc", env := .test, url := "https://u", enabled := true }]).Pairwise
      (fun i j => i.id ≠ j.id) :=
  expand_ids_spec _ _ (by decide) (by decide)

/-- **C5** (counterexample to the claim as stated): with duplicate project
ids the input `(projectId, env)` pairs are pairwise distinct, yet two items
share the id `"a-prod"`. -/
theorem expand_ids_claim_cx :
    ((expandNavigationItems
      [{ id := "a", name := "n1", categoryId := "c" },
       { id := "a", name := "n2", categoryId := "c" }]
      [{ projectId := "a", env := .prod, url := "https://u", enabled := true }]).map
        (fun i => i.id)) = ["a-prod", "a-prod"] ∧
    (([{ projectId := "a", env := .prod, url := "https://u", enabled := true }] :
        List ProjectEnv).map fun e => (e.projectId, e.env)).Pairwise (· ≠ ·) ∧
    ¬ ((expandNavigationItems
      [{ id := "a", name := "n1", categoryId := "c" },
       { id := "a", name := "n2", categoryId := "c" }]
      [{ projectId := "a", env := .prod, url := "https://u", enabled := true }]).Pairwise
        fun i j => i.id ≠ j.id) := by
  refine ⟨rfl, by decide, by decide⟩

/-! ## Helper lemmas about the aggregator's comparators -/

/-- The item comparator is transitive whenever the locale comparison is. -/
theorem itemLE_trans {lc : String → String → Int}
    (hTrans : ∀ a b c, lc a b ≤ 0 → lc b c ≤ 0 → lc a c ≤ 0) :
    ∀ a b c, itemLE lc a b → itemLE lc b c → itemLE lc a c := by
  intro a b c hab hbc
  simp only [itemLE, itemCmp, decide_eq_true_eq] at *
  split_ifs at hab hbc ⊢ <;>
    first
      | exact hTrans _ _ _ hab hbc
      | omega

/-- The item comparator is total whenever the locale comparison is. -/
theorem itemLE_total {lc : String → String → Int}
    (hTotal : ∀ x y, lc x y ≤ 0 ∨ lc y x ≤ 0) :
    ∀ a b, itemLE lc a b || itemLE lc b a := by
  intro a b
  simp only [itemLE, itemCmp, Bool.or_eq_true, decide_eq_true_eq]
  split_ifs <;>
    first
      | exact hTotal _ _
      | omega

theorem catLE_trans : ∀ a b c : CategoryBlock, catLE a b → catLE b c → catLE a c := by
  intro a b c hab hbc
  simp only [catLE, catCmp, decide_eq_true_eq] at *
  omega

theorem catLE_total : ∀ a b : CategoryBlock, catLE a b || catLE b a := by
  intro a b
  simp only [catLE, catCmp, Bool.or_eq_true, decide_eq_true_eq]
  omega

/-- A stable sort does not move elements that are all tied under `le`. -/
theorem mergeSort_filter_tied {α : Type} (le : α → α → Bool)
    (htrans : ∀ a b c, le a b → le b c → le a c)
    (htotal : ∀ a b, le a b || le b a)
    (p : α → Bool) (hp : ∀ a b, p a = true → p b = true → le a b = true) (l : List α) :
    (l.mergeSort le).filter p = l.filter p := by
  have h1 : List.Sublist (l.filter p) l := List.filter_sublist l
  have hpw : (l.filter p).Pairwise fun a b => le a b = true :=
    List.pairwise_of_forall_mem_list fun a ha b hb =>
      hp a b (List.mem_filter.mp ha).2 (List.mem_filter.mp hb).2
  have h2 : List.Sublist (l.filter p) (l.mergeSort le) :=
    List.sublist_mergeSort htrans htotal hpw h1
  have h3 : List.Sublist (l.filter p) ((l.mergeSort le).filter p) := by
    have h4 := h2.filter p
    rwa [List.filter_filter, (by simp : (fun a => p a && p a) = p)] at h4
  refine (h3.eq_of_length ?_).symm
  rw [← List.countP_eq_length_filter, ← List.countP_eq_length_filter]
  exact ((List.mergeSort_perm l le).countP_eq p).symm

/-- **C6**: the sort weight assigned by the expander to an item's `order`
field is production = 1, staging = 2, test = 3, a function of the
environment kind alone (hence independent of declaration order). -/
theorem env_order_spec :
    getEnvOrder .prod = 1 ∧ getEnvOrder .staging = 2 ∧ getEnvOrder .test = 3 ∧
    ∀ (P : List Project) (E : List ProjectEnv), ∀ i ∈ expandNavigationItems P E,
      i.order = getEnvOrder i.env := by
  refine ⟨rfl, rfl, rfl, ?_⟩
  intro P E i hi
  obtain ⟨p, _, e, _, _, rfl⟩ := mem_expand.mp hi
  rfl

theorem env_order_spec_witness :
    (mkItem { id := "svc", name := "S", categoryId := "c" }
      { projectId := "svc", env := .prod, url := "https://u", enabled := true }).order =
    getEnvOrder (mkItem { id := "svc", name := "S", categoryId := "c" }
      { projectId := "svc", env := .prod, url := "https://u", enabled := true }).env :=
  env_order_spec.2.2.2
    [{ id := "svc", name := "S", categoryId := "c" }]
    [{ projectId := "svc", env := .prod, url := "https://u", enabled := true }]
    _ (by decide)


/-- **C7**: within every emitted block, items are sorted by the composite
key — never a strictly greater `order` earlier, and equal-`order` items in
ascending locale (`lc`) order — provided the locale comparison is a total
preorder. -/
theorem aggregate_items_sorted (lc : String → String → Int)
    (hTotal : ∀ x y, lc x y ≤ 0 ∨ lc y x ≤ 0)
    (hTrans : ∀ a b c, lc a b ≤ 0 → lc b c ≤ 0 → lc a c ≤ 0)
    (categories : List Category) (navigationItems : List NavigationItem) :
    ∀ b ∈ groupByCategory lc categories navigationItems,
      b.items.Pairwise fun x y =>
        x.order ≤ y.order ∧ (x.order = y.order → lc x.projectName y.projectName ≤ 0) := by
  intro b hb
  rw [groupByCategory, List.mem_mergeSort, blocksUnsorted, List.mem_filter] at hb
  obtain ⟨hb1, _⟩ := hb
  obtain ⟨c, _, rfl⟩ := List.mem_map.mp hb1
  have hs := List.sorted_mergeSort (itemLE_trans hTrans) (itemLE_total hTotal)
    (navigationItems.filter fun item => item.categoryId == c.id && item.enabled)
  refine hs.imp ?_
  intro x y hxy
  simp only [itemLE, itemCmp, decide_eq_true_eq] at hxy
  by_cases h : x.order = y.order
  · rw [if_neg (by simp [h])] at hxy
    exact ⟨le_of_eq h, fun _ => hxy⟩
  · rw [if_pos h] at hxy
    exact ⟨by omega, fun he => absurd he h⟩

/-- **C8**: emitted blocks are sorted by ascending effective category
order, where an absent `order` is the sentinel 999, and blocks whose
effective orders tie keep their relative order from the pre-sort block
list. -/
theorem aggregate_blocks_sorted (lc : String → String → Int)
    (categories : List Category) (navigationItems : List NavigationItem) :
    (groupByCategory lc categories navigationItems).Pairwise
      (fun a b => effOrder a ≤ effOrder b) ∧
    (∀ b : CategoryBlock, b.category.order = none → effOrder b = 999) ∧
    ∀ v : Int,
      (groupByCategory lc categories navigationItems).filter (fun b => effOrder b == v) =
        (blocksUnsorted lc categories navigationItems).filter fun b => effOrder b == v := by
  refine ⟨?_, ?_, ?_⟩
  · have hs := List.sorted_mergeSort catLE_trans catLE_total
      (blocksUnsorted lc categories navigationItems)
    rw [groupByCategory]
    refine hs.imp ?_
    intro a b hab
    simp only [catLE, catCmp, decide_eq_true_eq] at hab
    omega
  · intro b hb
    simp [effOrder, hb]
  · intro v
    rw [groupByCategory]
    refine mergeSort_filter_tied catLE catLE_trans catLE_total _ ?_ _
    intro a b ha hb
    simp only [beq_iff_eq] at ha hb
    simp only [catLE, catCmp, decide_eq_true_eq, ha, hb]
    omega

/-- **C9**: no disabled item appears in any emitted block, and no emitted
block has an empty items list. -/
theorem aggregate_no_disabled_no_empty (lc : String → String → Int)
    (categories : List Category) (navigationItems : List NavigationItem) :
    ∀ b ∈ groupByCategory lc categories navigationItems,
      (∀ i ∈ b.items, i.enabled = true) ∧ b.items ≠ [] := by
  intro b hb
  rw [groupByCategory, List.mem_mergeSort, blocksUnsorted, List.mem_filter] at hb
  obtain ⟨hb1, hb2⟩ := hb
  obtain ⟨c, _, rfl⟩ := List.mem_map.mp hb1
  constructor
  · intro i hi
    have hmem : i ∈ navigationItems.filter fun item =>
        item.categoryId == c.id && item.enabled := by
      simpa [blockOf, List.mem_mergeSort] using hi
    have h2 := (List.mem_filter.mp hmem).2
    exact (Bool.and_eq_true _ _).mp h2 |>.2
  · intro hnil
    simp [hnil] at hb2

/-- In a list with pairwise-distinct keys, exactly one element carries the
key of a member. -/
theorem countP_key_eq_one {α : Type} (f : α → String) :
    ∀ l : List α, l.Pairwise (fun a b => f a ≠ f b) →
      ∀ c ∈ l, l.countP (fun a => f a == f c) = 1 := by
  intro l
  induction l with
  | nil => simp
  | cons a l ih =>
    intro hnd c hc
    obtain ⟨ha, hl⟩ := List.pairwise_cons.mp hnd
    rcases List.mem_cons.mp hc with rfl | hc'
    · rw [List.countP_cons]
      have h0 : l.countP (fun x => f x == f c) = 0 :=
        List.countP_eq_zero.mpr fun b hb => by
          simp only [beq_iff_eq]
          exact fun heq => (ha b hb) heq.symm
      simp [h0]
    · rw [List.countP_cons]
      have h0 : (f a == f c) = false := by
        simp only [beq_eq_false_iff_ne, ne_eq]
        exact ha c hc'
      simp [h0, ih hl c hc']

/-- **C10**: with pairwise-distinct category ids, every block item is an
enabled input item carrying its block's category id, and every enabled
input item whose `categoryId` is some category's id lies in exactly one
emitted block. -/
theorem aggregate_partition (lc : String → String → Int)
    (categories : List Category) (navigationItems : List NavigationItem)
    (hnd : categories.Pairwise fun c c' => c.id ≠ c'.id) :
    (∀ b ∈ groupByCategory lc categories navigationItems,
       ∀ i ∈ b.items, i.enabled = true ∧ i.categoryId = b.category.id ∧ i ∈ navigationItems) ∧
    (∀ i ∈ navigationItems, i.enabled = true →
      ∀ c ∈ categories, c.id = i.categoryId →
        (groupByCategory lc categories navigationItems).countP
          (fun b => b.items.contains i) = 1) := by
  constructor
  · intro b hb i hi
    rw [groupByCategory, List.mem_mergeSort, blocksUnsorted, List.mem_filter] at hb
    obtain ⟨hb1, _⟩ := hb
    obtain ⟨c, _, rfl⟩ := List.mem_map.mp hb1
    have hmem : i ∈ navigationItems.filter fun item =>
        item.categoryId == c.id && item.enabled := by
      simpa [blockOf, List.mem_mergeSort] using hi
    obtain ⟨hin, hcond⟩ := List.mem_filter.mp hmem
    obtain ⟨h1, h2⟩ := (Bool.and_eq_true _ _).mp hcond
    exact ⟨h2, beq_iff_eq.mp h1, hin⟩
  · intro i hi hien c hc hcid
    rw [groupByCategory, (List.mergeSort_perm _ catLE).countP_eq, blocksUnsorted,
      List.countP_filter, List.countP_map]
    simp only [Function.comp_def]
    have hpt : ∀ c' ∈ categories,
        (((blockOf lc navigationItems c').items.contains i &&
          decide ((blockOf lc navigationItems c').items.length > 0)) = true) ↔
        ((c'.id == i.categoryId) = true) := by
      intro c' _
      constructor
      · intro h
        obtain ⟨h1, _⟩ := (Bool.and_eq_true _ _).mp h
        have hmem : i ∈ (blockOf lc navigationItems c').items := by
          simpa [List.contains, List.elem_iff] using h1
        have hf : i ∈ navigationItems.filter fun item =>
            item.categoryId == c'.id && item.enabled := by
          simpa [blockOf, List.mem_mergeSort] using hmem
        have := ((Bool.and_eq_true _ _).mp (List.mem_filter.mp hf).2).1
        exact beq_iff_eq.mpr (beq_iff_eq.mp this).symm
      · intro h
        have hmem : i ∈ (blockOf lc navigationItems c').items := by
          simp only [blockOf, List.mem_mergeSort, List.mem_filter]
          refine ⟨hi, ?_⟩
          simp [beq_iff_eq.mp h, hien]
        refine (Bool.and_eq_true _ _).mpr ⟨?_, ?_⟩
        · simpa [List.contains, List.elem_iff] using hmem
        · simpa using List.length_pos.mpr (List.ne_nil_of_mem hmem)
    rw [List.countP_congr hpt]
    have := countP_key_eq_one (fun c : Category => c.id) categories hnd c hc
    simpa [hcid] using this


unseal List.merge List.mergeSort in
theorem aggregate_items_sorted_witness :
    (blockOf (fun _ _ => 0)
      [{ id := "b-test", projectId := "b", projectName := "B", categoryId := "k",
         env := .test, url := "https://u", enabled := true, order := 3 },
       { id := "a-prod", projectId := "a", projectName := "A", categoryId := "k",
         env := .prod, url := "https://u", enabled := true, order := 1 }]
      { id := "k", name := "K" }).items.Pairwise
      (fun x y => x.order ≤ y.order ∧
        (x.order = y.order → (fun _ _ => (0 : Int)) x.projectName y.projectName ≤ 0)) :=
  aggregate_items_sorted (fun _ _ => 0) (fun _ _ => Or.inl le_rfl)
    (fun _ _ _ _ _ => le_rfl)
    [{ id := "k", name := "K" }]
    [{ id := "b-test", projectId := "b", projectName := "B", categoryId := "k",
       env := .test, url := "https://u", enabled := true, order := 3 },
     { id := "a-prod", projectId := "a", projectName := "A", categoryId := "k",
       env := .prod, url := "https://u", enabled := true, order := 1 }]
    _ (by decide)

theorem aggregate_blocks_sorted_witness :
    effOrder { category := { id := "k", name := "K" }, items := [] } = 999 :=
  (aggregate_blocks_sorted (fun _ _ => 0) [] []).2.1 _ rfl

unseal List.merge List.mergeSort in
theorem aggregate_no_disabled_no_empty_witness :
    (∀ i ∈ (blockOf (fun _ _ => 0)
      [{ id := "a-prod", projectId := "a", projectName := "A", categoryId := "k",
         env := .prod, url := "https://u", enabled := true, order := 1 },
       { id := "c-prod", projectId := "c", projectName := "C", categoryId := "k",
         env := .prod, url := "https://u", enabled := false, order := 1 }]
      { id := "k", name := "K" }).items, i.enabled = true) ∧
    (blockOf (fun _ _ => 0)
      [{ id := "a-prod", projectId := "a", projectName := "A", categoryId := "k",
         env := .prod, url := "https://u", enabled := true, order := 1 },
       { id := "c-prod", projectId := "c", projectName := "C", categoryId := "k",
         env := .prod, url := "https://u", enabled := false, order := 1 }]
      { id := "k", name := "K" }).items ≠ [] :=
  aggregate_no_disabled_no_empty (fun _ _ => 0)
    [{ id := "k", name := "K" }]
    [{ id := "a-prod", projectId := "a", projectName := "A", categoryId := "k",
       env := .prod, url := "https://u", enabled := true, order := 1 },
     { id := "c-prod", projectId := "c", projectName := "C", categoryId := "k",
       env := .prod, url := "https://u", enabled := false, order := 1 }]
    _ (by decide)

theorem aggregate_partition_witness :
    (groupByCategory (fun _ _ => 0)
      [{ id := "k", name := "K" }]
      [{ id := "a-prod", projectId := "a", projectName := "A", categoryId := "k",
         env := .prod, url := "https://u", enabled := true, order := 1 }]).countP
      (fun b => b.items.contains
        { id := "a-prod", projectId := "a", projectName := "A", categoryId := "k",
          env := .prod, url := "https://u", enabled := true, order := 1 }) = 1 :=
  (aggregate_partition (fun _ _ => 0)
    [{ id := "k", name := "K" }]
    [{ id := "a-prod", projectId := "a", projectName := "A", categoryId := "k",
       env := .prod, url := "https://u", enabled := true, order := 1 }] (by decide)).2
    { id := "a-prod", projectId := "a", projectName := "A", categoryId := "k",
      env := .prod, url := "https://u", enabled := true, order := 1 } (by decide) rfl
    { id := "k", name := "K" } (by decide) rfl

/-! ## Helper lemmas about the validator reporting idioms -/

/-- Counting in the accumulator pass of `dedupJS`. -/
theorem dedupJS_go_count (x : String) :
    ∀ (xs seen : List String),
      (dedupJS.go seen xs).count x =
        if x ∈ seen then 0 else if x ∈ xs then 1 else 0 := by
  intro xs
  induction xs with
  | nil => intro seen; simp [dedupJS.go]
  | cons y ys ih =>
    intro seen
    by_cases hy : y ∈ seen
    · rw [dedupJS.go, if_pos (by simpa using hy), ih seen]
      by_cases hx : x ∈ seen
      · simp [hx]
      · have hxy : x ≠ y := fun h => hx (h ▸ hy)
        simp [hx, hxy, List.mem_cons]
    · rw [dedupJS.go, if_neg (by simpa using hy), List.count_cons, ih (y :: seen)]
      by_cases hxy : x = y
      · subst hxy
        simp [hy, List.mem_cons]
      · simp [List.mem_cons, hxy, Ne.symm hxy]

/-- Each member of a list appears exactly once in its `dedupJS`. -/
theorem dedupJS_count (xs : List String) (x : String) :
    (dedupJS xs).count x = if x ∈ xs then 1 else 0 := by
  simpa [dedupJS] using dedupJS_go_count x xs []

/-- Counting in `dupsJS`, generalised over an already-scanned prefix: an
element of the suffix survives the index filter exactly when it occurs
earlier in the whole list. -/
theorem dupsJS_count_aux (x : String) :
    ∀ (xs pre : List String),
      (((xs.enumFrom pre.length).filter fun p => (pre ++ xs).indexOf p.2 != p.1).map
        (·.2)).count x = if x ∈ pre then xs.count x else xs.count x - 1 := by
  intro xs
  induction xs with
  | nil => intro pre; simp
  | cons y ys ih =>
    intro pre
    rw [List.enumFrom_cons]
    by_cases hy : y ∈ pre
    · have hidx : (pre ++ y :: ys).indexOf y ≠ pre.length := by
        have h1 : (pre ++ y :: ys).indexOf y = pre.indexOf y :=
          List.indexOf_append_of_mem hy
        have h2 : pre.indexOf y < pre.length := List.indexOf_lt_length.mpr hy
        omega
      rw [List.filter_cons_of_pos (by simpa using hidx), List.map_cons, List.count_cons]
      have hre : pre ++ y :: ys = (pre ++ [y]) ++ ys := by simp
      have hlen : pre.length + 1 = (pre ++ [y]).length := by simp
      rw [hre, hlen, ih (pre ++ [y])]
      by_cases hxy : x = y
      · subst hxy
        simp [hy, List.count_cons, List.mem_append]
      · simp [List.mem_append, List.count_cons, hxy, Ne.symm hxy]
    · have hidx : (pre ++ y :: ys).indexOf y = pre.length := by
        rw [List.indexOf_append_of_not_mem hy, List.indexOf_cons_self]
        omega
      rw [List.filter_cons_of_neg (by simpa using hidx)]
      have hre : pre ++ y :: ys = (pre ++ [y]) ++ ys := by simp
      have hlen : pre.length + 1 = (pre ++ [y]).length := by simp
      rw [hre, hlen, ih (pre ++ [y])]
      by_cases hxy : x = y
      · subst hxy
        simp [hy, List.count_cons, List.mem_append]
      · simp [List.mem_append, List.count_cons, hxy, Ne.symm hxy]

/-- Each value appears in `dupsJS xs` once per occurrence in `xs` after its
first. -/
theorem dupsJS_count (xs : List String) (x : String) :
    (dupsJS xs).count x = xs.count x - 1 := by
  simpa [dupsJS, List.enum] using dupsJS_count_aux x xs []

/-! ## Claims C1, C2, C3 -/

/-- **C1** (amended): the ProjectEnv integrity checks (unknown `projectId`,
duplicate `(projectId, env)` key) report each offending value exactly once;
the duplicate category-id, project-id and project-name checks report each
value once per occurrence after its first — so exactly once only when a
value occurs exactly twice.  The lists counted here are exactly the lists
joined into the corresponding error strings. -/
theorem validator_report_counts :
    (∀ (envs : List RawProjectEnv) (projectIds : List String) (x : String),
        x ∈ invalidProjectIdsOf envs projectIds →
        (dedupJS (invalidProjectIdsOf envs projectIds)).count x = 1) ∧
    (∀ (envs : List RawProjectEnv) (x : String),
        x ∈ dupsJS (combinationsOf envs) →
        (dedupJS (dupsJS (combinationsOf envs))).count x = 1) ∧
    (∀ (xs : List String) (x : String), (dupsJS xs).count x = xs.count x - 1) := by
  refine ⟨?_, ?_, fun xs x => dupsJS_count xs x⟩
  · intro envs projectIds x hx
    rw [dedupJS_count, if_pos hx]
  · intro envs x hx
    rw [dedupJS_count, if_pos hx]

theorem validator_report_counts_witness :
    (dedupJS (invalidProjectIdsOf
      [{ projectId := "q", env := "prod", url := "https://u" },
       { projectId := "q", env := "test", url := "https://u" }] ["p"])).count "q" = 1 ∧
    (dedupJS (dupsJS (combinationsOf
      [{ projectId := "p", env := "prod", url := "https://u" },
       { projectId := "p", env := "prod", url := "https://u" },
       { projectId := "p", env := "prod", url := "https://u" }]))).count "p-prod" = 1 ∧
    (dupsJS ["a", "a", "a"]).count "a" = 2 :=
  ⟨validator_report_counts.1 _ ["p"] "q" (by decide),
   validator_report_counts.2.1 _ "p-prod" (by decide),
   validator_report_counts.2.2 ["a", "a", "a"] "a"⟩

/-- **C1** (counterexample to the claim as stated): a category id occurring
three times is named twice, not once, in the duplicate-category error
message. -/
theorem validator_distinct_once_cx :
    (validateCategories
      [{ id := "a", name := "n1" }, { id := "a", name := "n2" },
       { id := "a", name := "n3" }]).errors = ["Duplicate category IDs: a, a"] ∧
    (dupsJS ["a", "a", "a"]).count "a" = 2 := by
  exact ⟨rfl, rfl⟩

/-- **C2** (amended): inside each per-entity validator, uniqueness and
foreign-key checks run only when that entity's schema check passed (on
failure the validator returns exactly the schema errors); but the
cross-file project→category check of `main` runs on the raw loaded arrays
unconditionally, independent of any schema outcome. -/
theorem schema_gating :
    (∀ cats, categorySchemaErrors cats ≠ [] →
        (validateCategories cats).errors = categorySchemaErrors cats ∧
        (validateCategories cats).valid = false) ∧
    (∀ projs, projectSchemaErrors projs ≠ [] →
        (validateProjects projs).errors = projectSchemaErrors projs ∧
        (validateProjects projs).valid = false) ∧
    (∀ envs catIds pids, projectEnvSchemaErrors envs ≠ [] →
        (validateProjectEnvs envs catIds pids).errors = projectEnvSchemaErrors envs ∧
        (validateProjectEnvs envs catIds pids).valid = false) ∧
    (∀ links catIds, linkSchemaErrors links ≠ [] →
        (validateLinks links catIds).errors = linkSchemaErrors links ∧
        (validateLinks links catIds).valid = false) ∧
    (∀ cats projs envs links, ∀ s ∈ crossFileErrors cats projs,
        s ∈ mainChecks cats projs envs links) := by
  refine ⟨?_, ?_, ?_, ?_, ?_⟩
  · intro cats h
    simp [validateCategories, if_pos h]
  · intro projs h
    simp [validateProjects, if_pos h]
  · intro envs catIds pids h
    simp [validateProjectEnvs, if_pos h]
  · intro links catIds h
    simp [validateLinks, if_pos h]
  · intro cats projs envs links s hs
    exact List.mem_append_right _ hs

theorem schema_gating_witness :
    ((validateCategories [{ id := "", name := "n" }]).errors =
      categorySchemaErrors [{ id := "", name := "n" }] ∧
     (validateCategories [{ id := "", name := "n" }]).valid = false) ∧
    "Projects reference non-existent categoryIds: ghost" ∈
      mainChecks [] [{ id := "", name := "x", categoryId := "ghost" }] [] [] :=
  ⟨schema_gating.1 _ (by decide),
   schema_gating.2.2.2.2 [] [{ id := "", name := "x", categoryId := "ghost" }] [] []
     _ (by decide)⟩

/-- **C2** (counterexample to the claim as stated): with a schema-invalid
project (empty id), the cross-file categoryId check still runs on the raw
records and reports the dangling reference. -/
theorem schema_gating_cx :
    (validateProjects [{ id := "", name := "x", categoryId := "ghost" }]).valid = false ∧
    "Projects reference non-existent categoryIds: ghost" ∈
      mainChecks [] [{ id := "", name := "x", categoryId := "ghost" }] [] [] := by
  exact ⟨rfl, by decide⟩

/-- The first character of a string built from a nonempty literal prefix. -/
theorem head_of_lit_append {lit : String} {c : Char} (s : String)
    (h : lit.data.head? = some c) : (lit ++ s).data.head? = some c := by
  rw [String.data_append, List.head?_append, h]
  rfl

/-- Membership in a conditional singleton. -/
theorem mem_if_singleton {c : Prop} [Decidable c] {m s : String}
    (h : s ∈ if c then [m] else ([] : List String)) : s = m := by
  split at h
  · simpa using h
  · simp at h

theorem categoryRecordErrors_head (i : Nat) (r : RawCategory) :
    ∀ s ∈ categoryRecordErrors i r, s.data.head? = some 'C' := by
  intro s hs
  unfold categoryRecordErrors at hs
  rcases List.mem_append.mp hs with hs | hs
  · rcases List.mem_append.mp hs with hs | hs <;>
      rw [mem_if_singleton hs] <;> exact head_of_lit_append _ rfl
  · rcases hor : r.order with _ | o <;> rw [hor] at hs
    · simp at hs
    · rw [mem_if_singleton hs]
      exact head_of_lit_append _ rfl

theorem projectRecordErrors_head (i : Nat) (r : RawProject) :
    ∀ s ∈ projectRecordErrors i r, s.data.head? = some 'P' := by
  intro s hs
  unfold projectRecordErrors at hs
  rcases List.mem_append.mp hs with hs | hs
  · rcases List.mem_append.mp hs with hs | hs
    · rcases List.mem_append.mp hs with hs | hs <;>
        rw [mem_if_singleton hs] <;> exact head_of_lit_append _ rfl
    · rw [mem_if_singleton hs]; exact head_of_lit_append _ rfl
  · rcases hor : r.order with _ | o <;> rw [hor] at hs
    · simp at hs
    · rw [mem_if_singleton hs]; exact head_of_lit_append _ rfl

theorem projectEnvRecordErrors_head (i : Nat) (r : RawProjectEnv) :
    ∀ s ∈ projectEnvRecordErrors i r, s.data.head? = some 'P' := by
  intro s hs
  unfold projectEnvRecordErrors at hs
  rcases List.mem_append.mp hs with hs | hs
  · rcases List.mem_append.mp hs with hs | hs <;>
      rw [mem_if_singleton hs] <;> exact head_of_lit_append _ rfl
  · rw [mem_if_singleton hs]; exact head_of_lit_append _ rfl

theorem linkRecordErrors_head (i : Nat) (r : RawLink) :
    ∀ s ∈ linkRecordErrors i r, s.data.head? = some 'L' := by
  intro s hs
  unfold linkRecordErrors at hs
  rcases List.mem_append.mp hs with hs | hs
  · rcases List.mem_append.mp hs with hs | hs
    · rcases List.mem_append.mp hs with hs | hs <;>
        rw [mem_if_singleton hs] <;> exact head_of_lit_append _ rfl
    · rw [mem_if_singleton hs]; exact head_of_lit_append _ rfl
  · rcases hor : r.order with _ | o <;> rw [hor] at hs
    · simp at hs
    · rw [mem_if_singleton hs]; exact head_of_lit_append _ rfl

theorem validateCategories_errors_head (cats : List RawCategory) :
    ∀ s ∈ (validateCategories cats).errors,
      s.data.head? = some 'C' ∨ s.data.head? = some 'D' := by
  intro s hs
  simp only [validateCategories] at hs
  split at hs
  · obtain ⟨p, _, hp⟩ := List.mem_flatMap.mp hs
    exact Or.inl (categoryRecordErrors_head p.1 p.2 s hp)
  · split at hs
    · right
      have hm : s = "Duplicate category IDs: " ++
          ", ".intercalate (dupsJS (List.map (fun x => x.id) cats)) := by simpa using hs
      rw [hm]
      exact head_of_lit_append _ rfl
    · simp at hs

theorem validateProjects_errors_head (projs : List RawProject) :
    ∀ s ∈ (validateProjects projs).errors,
      s.data.head? = some 'P' ∨ s.data.head? = some 'D' := by
  intro s hs
  simp only [validateProjects] at hs
  split at hs
  · obtain ⟨p, _, hp⟩ := List.mem_flatMap.mp hs
    exact Or.inl (projectRecordErrors_head p.1 p.2 s hp)
  · rcases List.mem_append.mp hs with hs | hs <;>
      (rw [mem_if_singleton hs]; exact Or.inr (head_of_lit_append _ rfl))

theorem validateProjectEnvs_errors_head (envs : List RawProjectEnv)
    (catIds pids : List String) :
    ∀ s ∈ (validateProjectEnvs envs catIds pids).errors,
      s.data.head? = some 'P' ∨ s.data.head? = some 'D' := by
  intro s hs
  simp only [validateProjectEnvs] at hs
  split at hs
  · obtain ⟨p, _, hp⟩ := List.mem_flatMap.mp hs
    exact Or.inl (projectEnvRecordErrors_head p.1 p.2 s hp)
  · rcases List.mem_append.mp hs with hs | hs
    · rw [mem_if_singleton hs]; exact Or.inl (head_of_lit_append _ rfl)
    · rw [mem_if_singleton hs]; exact Or.inr (head_of_lit_append _ rfl)

theorem validateLinks_errors_head (links : List RawLink) (catIds : List String) :
    ∀ s ∈ (validateLinks links catIds).errors,
      s.data.head? = some 'L' ∨ s.data.head? = some 'D' := by
  intro s hs
  simp only [validateLinks] at hs
  split at hs
  · obtain ⟨p, _, hp⟩ := List.mem_flatMap.mp hs
    exact Or.inl (linkRecordErrors_head p.1 p.2 s hp)
  · rcases List.mem_append.mp hs with hs | hs
    · rw [mem_if_singleton hs]; exact Or.inr (head_of_lit_append _ rfl)
    · rw [mem_if_singleton hs]; exact Or.inl (head_of_lit_append _ rfl)

theorem crossFileErrors_head (cats : List RawCategory) (projs : List RawProject) :
    ∀ s ∈ crossFileErrors cats projs, s.data.head? = some 'P' := by
  intro s hs
  unfold crossFileErrors at hs
  rw [mem_if_singleton hs]
  exact head_of_lit_append _ rfl

/-- No entry the validation pass itself produces starts like the load-error
entry (whose first character is `F`). -/
theorem mainChecks_not_load_error (cats : List RawCategory) (projs : List RawProject)
    (envs : List RawProjectEnv) (links : List RawLink) :
    ∀ s ∈ mainChecks cats projs envs links, s.data.head? ≠ some 'F' := by
  intro s hs
  simp only [mainChecks] at hs
  rcases List.mem_append.mp hs with hs | hs
  · rcases List.mem_append.mp hs with hs | hs
    · rcases List.mem_append.mp hs with hs | hs
      · rcases List.mem_append.mp hs with hs | hs
        · split at hs
          · simp at hs
          · rcases validateCategories_errors_head cats s hs with h | h <;> simp [h]
        · split at hs
          · simp at hs
          · rcases validateProjects_errors_head projs s hs with h | h <;> simp [h]
      · split at hs
        · simp at hs
        · rcases validateProjectEnvs_errors_head _ _ _ s hs with h | h <;> simp [h]
    · split at hs
      · simp at hs
      · rcases validateLinks_errors_head _ _ s hs with h | h <;> simp [h]
  · simp [crossFileErrors_head cats projs s hs]

/-- **C3** (amended): the validate entry point never throws — a load
failure is caught and folded into the same error report as a single
`Failed to read data files` entry (and validation is skipped); on a
successful load the report is exactly the validators' output, and no such
report entry can collide with a load-error entry, so the two failure
classes are distinguishable only by message content, not by propagation. -/
theorem load_error_handling :
    (∀ e, main (Except.error e) = ["Failed to read data files: " ++ e]) ∧
    (∀ cats projs envs links,
        main (Except.ok (cats, projs, envs, links)) = mainChecks cats projs envs links) ∧
    (∀ e cats projs envs links,
        ("Failed to read data files: " ++ e) ∉ mainChecks cats projs envs links) := by
  refine ⟨fun e => rfl, fun _ _ _ _ => rfl, ?_⟩
  intro e cats projs envs links hmem
  exact mainChecks_not_load_error cats projs envs links _ hmem (head_of_lit_append _ rfl)

theorem load_error_handling_witness :
    ("Failed to read data files: ENOENT") ∉ mainChecks [] [] [] [] :=
  load_error_handling.2.2 "ENOENT" [] [] [] []

/-- **C3** (counterexample to the claim as stated): on a failed load the
validate entry point returns the failure inside its validation error
report (a caught, folded entry) instead of propagating an exception. -/
theorem load_error_claim_cx :
    main (Except.error "ENOENT: no such file or directory") =
      ["Failed to read data files: ENOENT: no such file or directory"] ∧
    main (Except.error "ENOENT: no such file or directory") ≠ [] :=
  ⟨rfl, by simp [main]⟩

end NavSphere
